import Mathlib

/-!
Shallow embedding of `laoshi.py`, a terminal-based language-learning drill
tool: a TTS synthesis client, CSV-backed vocabulary stores, an audio-cache
reconciliation sweep, an all-or-nothing interactive create flow, and two
randomized drill sessions.  File paths are modelled as strings, the on-disk
artifact set as a list of paths (membership semantics), byte payloads as
`List Nat`, and TTS speeds as exact rationals.  External effects (the TTS
call, file writes, audio playback) are modelled as explicit function
parameters so every definition is executable.
-/

namespace Laoshi

/-- Fixed speed values from the configuration block of `laoshi.py`. -/
def DEFAULT_KOKORO_SPEED : ℚ := 1

/-- Slower speed for better clarity (0.7, written in lowest terms via the
rational constructor so that kernel evaluation of speed comparisons
works). -/
def SLOWER_KOKORO_SPEED : ℚ := ⟨7, 10, by norm_num, by norm_num⟩

/-- Extra slow speed for very clear pronunciation (0.5). -/
def EXTRA_SLOW_KOKORO_SPEED : ℚ := ⟨1, 2, by norm_num, by norm_num⟩

/-- Audio filename endings for the three speeds. -/
def DEFAULT_SPEED_TAG : String := "_default"

/-- Filename ending for the slower speed. -/
def SLOWER_SPEED_TAG : String := "_slow"

/-- Filename ending for the extra-slow speed. -/
def EXTRA_SLOW_SPEED_TAG : String := "_slower"

/-- One entry of `SPEED_CONFIGURATIONS`: a numeric playback rate and the
filename ending used for files at that rate (`display_name` is UI-only and
omitted). -/
structure SpeedConfig where
  value : ℚ
  tag : String
deriving DecidableEq

/-- The fixed ordered speed configuration list used by dictation pro
(extra-slow, slow, default — in this order, as in the source). -/
def SPEED_CONFIGURATIONS : List SpeedConfig :=
  [⟨EXTRA_SLOW_KOKORO_SPEED, EXTRA_SLOW_SPEED_TAG⟩,
   ⟨SLOWER_KOKORO_SPEED, SLOWER_SPEED_TAG⟩,
   ⟨DEFAULT_KOKORO_SPEED, DEFAULT_SPEED_TAG⟩]

/-- Base audio directory. -/
def AUDIO_DIR : String := "audio"

/-- Word audio directory (`os.path.join(AUDIO_DIR, "characters")`). -/
def AUDIO_CHAR_DIR : String := AUDIO_DIR ++ "/characters"

/-- Sentence audio directory (`os.path.join(AUDIO_DIR, "pro")`). -/
def AUDIO_PRO_DIR : String := AUDIO_DIR ++ "/pro"

/-- The `speeds_to_generate` dict built in the sweep and create flows; a
Python dict iterates in insertion order, so this is an association list in
the order default, slow, extra-slow.  The default speed is
`args.kokoro_speed` (CLI-overridable), passed as `ds`. -/
def speeds_to_generate (ds : ℚ) : List (String × ℚ) :=
  [(DEFAULT_SPEED_TAG, ds),
   (SLOWER_SPEED_TAG, SLOWER_KOKORO_SPEED),
   (EXTRA_SLOW_SPEED_TAG, EXTRA_SLOW_KOKORO_SPEED)]

/-- Python `str.lower()`, modelled character-wise with `Char.toLower` (the
content-type strings involved are ASCII). -/
def strToLower (s : String) : String :=
  String.mk (s.data.map Char.toLower)

/-- Contiguous-sublist test on character lists. -/
def listInfix (pat : List Char) : List Char → Bool
  | [] => pat.isEmpty
  | c :: rest => pat.isPrefixOf (c :: rest) || listInfix pat rest

/-- Python `pat in s` substring test. -/
def strContains (s pat : String) : Bool :=
  listInfix pat.data s.data

/-- Embeds the HTTP response seen by `generate_tts_audio`: status code, the
raw `Content-Type` header (`none` when absent), and the body bytes. -/
structure HttpResponse where
  status : Nat
  contentType : Option String
  content : List Nat
deriving DecidableEq

/-- Embeds `generate_tts_audio` (laoshi.py lines 73–124).  The argument is
`none` when `requests.post` raises (transport failure / timeout), otherwise
the response.  On a 200 response the code lowercases the `Content-Type`
header (defaulting to the empty string when absent) and returns the body
bytes when it contains "audio/mpeg" or "application/octet-stream" or is
empty; every other content type, and every non-200 status, yields `none`. -/
def generate_tts_audio (resp : Option HttpResponse) : Option (List Nat) :=
  match resp with
  | none => none
  | some r =>
    if r.status = 200 then
      let content_type := strToLower (r.contentType.getD "")
      if strContains content_type "audio/mpeg"
          || strContains content_type "application/octet-stream"
          || content_type = "" then
        some r.content
      else
        none
    else
      none

/-- One line of `vocabulary.csv`: the header row or a record row. -/
inductive VocabLine where
  | header : VocabLine
  | record : (character pinyin character_meaning audio_file_name : String) → VocabLine
deriving DecidableEq

/-- One line of `sentences.csv`: the header row or a record row. -/
inductive SentenceLine where
  | header : SentenceLine
  | record : (sentence_text audio_file_name : String) → SentenceLine
deriving DecidableEq

/-- Embeds `save_vocab_entry` (laoshi.py lines 153–170).  The backing file
is `none` when absent; opening in append mode materialises an empty file,
`os.path.getsize` then reports its current size, and the header is written
when the file did not exist or was empty; the record row is appended in
either case. -/
def save_vocab_entry (file : Option (List VocabLine))
    (character pinyin character_meaning audio_file_name : String) : List VocabLine :=
  let file_exists := file.isSome
  let contents := file.getD []
  let afterHeader :=
    if !file_exists || contents.length = 0 then contents ++ [VocabLine.header] else contents
  afterHeader ++ [VocabLine.record character pinyin character_meaning audio_file_name]

/-- Embeds `save_sentence_entry` (laoshi.py lines 190–205), the sentence
counterpart of `save_vocab_entry`. -/
def save_sentence_entry (file : Option (List SentenceLine))
    (sentence_text audio_file_name : String) : List SentenceLine :=
  let file_exists := file.isSome
  let contents := file.getD []
  let afterHeader :=
    if !file_exists || contents.length = 0 then contents ++ [SentenceLine.header] else contents
  afterHeader ++ [SentenceLine.record sentence_text audio_file_name]

/-- One record of `vocabulary.csv` as loaded by `load_vocab`; a missing or
empty field is modelled as the empty string (both are falsy in Python). -/
structure WordEntry where
  character : String
  pinyin : String
  character_meaning : String
  audio_file_name : String
deriving DecidableEq

/-- One record of `sentences.csv` as loaded by `load_sentences`. -/
structure SentenceEntry where
  sentence_text : String
  audio_file_name : String
deriving DecidableEq

/-- Embeds Python `os.path.splitext` on a bare filename (no directory
separators): the extension starts at the last dot, unless every character
before that dot is itself a dot, in which case there is no extension. -/
def splitext (name : String) : String × String :=
  let revd := name.data.reverse
  let afterRev := revd.takeWhile (fun c => c != '.')
  match revd.dropWhile (fun c => c != '.') with
  | [] => (name, "")
  | _ :: beforeRev =>
    if beforeRev.all (fun c => c == '.') then (name, "")
    else (String.mk beforeRev.reverse, String.mk ('.' :: afterRev.reverse))

/-- Stem and extension of a stored base audio name; every flow of the
source defaults the extension to ".mp3" when `splitext` returns none. -/
def stemExt (audioName : String) : String × String :=
  let p := splitext audioName
  (p.1, if p.2 = "" then ".mp3" else p.2)

/-- Path of one speed-variant artifact:
`os.path.join(dir, stem + tag + ext)`. -/
def variant_audio_path (dir stem tag ext : String) : String :=
  dir ++ "/" ++ (stem ++ tag ++ ext)

/-- Outcome of one variant check in the sweep's inner loop. -/
structure VariantOutcome where
  disk : List String
  generated : Nat
  failed : Nat
  present : Bool
deriving DecidableEq

/-- One iteration of the sweep's inner loop (laoshi.py lines 246–269 and
326–349): if the variant file is absent, call the TTS client and either
write the file (generated) or count a failure; `synth` is the composite of
`generate_tts_audio` at this entry's text, `saveOk` tells whether
`os.makedirs` + `open/write` succeed for a path, and an empty byte string
is falsy in Python and counts as a failure. -/
def sweep_variant (synth : ℚ → Option (List Nat)) (saveOk : String → Bool)
    (path : String) (speed : ℚ) (disk : List String) : VariantOutcome :=
  if path ∈ disk then ⟨disk, 0, 0, true⟩
  else
    match synth speed with
    | some bs =>
      if bs = [] then ⟨disk, 0, 1, false⟩
      else if saveOk path then ⟨path :: disk, 1, 0, false⟩
      else ⟨disk, 0, 1, false⟩
    | none => ⟨disk, 0, 1, false⟩

/-- Aggregate outcome of the sweep over the variants of one entry. -/
structure EntrySweepOutcome where
  disk : List String
  generated : Nat
  failed : Nat
  all_present : Bool
deriving DecidableEq

/-- The sweep's inner loop over `speeds_to_generate` for one entry: checks
every variant in order, threading the artifact set; a failure on one
variant does not stop the remaining variants. -/
def sweep_entry (synth : ℚ → Option (List Nat)) (saveOk : String → Bool)
    (dir stem ext : String) : List (String × ℚ) → List String → EntrySweepOutcome
  | [], disk => ⟨disk, 0, 0, true⟩
  | (tag, speed) :: rest, disk =>
    let path := variant_audio_path dir stem tag ext
    let v := sweep_variant synth saveOk path speed disk
    let r := sweep_entry synth saveOk dir stem ext rest v.disk
    ⟨r.disk, v.generated + r.generated, v.failed + r.failed, v.present && r.all_present⟩

/-- The counters reported by the sweep summary panel. -/
structure SweepReport where
  items_all_speeds_found : Nat
  items_had_missing_speeds : Nat
  individual_files_generated : Nat
  individual_files_failed_generation : Nat
  skipped_incomplete_csv : Nat
deriving DecidableEq

/-- Final artifact set and report of a sweep. -/
structure SweepState where
  disk : List String
  report : SweepReport
deriving DecidableEq

/-- The common body of `ensure_audio_files_exist` and
`ensure_sentence_audio_files_exist` (laoshi.py lines 208–287 and 290–366),
over entries projected to (key field, base audio name): entries missing
either field are counted as skipped; otherwise every speed variant is
checked and missing ones are generated best-effort, threading the on-disk
artifact set left to right. -/
def ensure_entries (synth : String → ℚ → Option (List Nat)) (saveOk : String → Bool)
    (dir : String) (ds : ℚ) : List (String × String) → List String → SweepState
  | [], disk => ⟨disk, 0, 0, 0, 0, 0⟩
  | (key, audioName) :: rest, disk =>
    if key = "" ∨ audioName = "" then
      let s := ensure_entries synth saveOk dir ds rest disk
      ⟨s.disk, { s.report with
        skipped_incomplete_csv := s.report.skipped_incomplete_csv + 1 }⟩
    else
      let se := stemExt audioName
      let e := sweep_entry (synth key) saveOk dir se.1 se.2 (speeds_to_generate ds) disk
      let s := ensure_entries synth saveOk dir ds rest e.disk
      ⟨s.disk,
        { items_all_speeds_found :=
            s.report.items_all_speeds_found + (if e.all_present then 1 else 0),
          items_had_missing_speeds :=
            s.report.items_had_missing_speeds + (if e.all_present then 0 else 1),
          individual_files_generated := e.generated + s.report.individual_files_generated,
          individual_files_failed_generation :=
            e.failed + s.report.individual_files_failed_generation,
          skipped_incomplete_csv := s.report.skipped_incomplete_csv }⟩

/-- Embeds `ensure_audio_files_exist` (laoshi.py lines 208–287): the word
sweep, over `audio/characters`.  `ds` is `args.kokoro_speed`. -/
def ensure_audio_files_exist (synth : String → ℚ → Option (List Nat))
    (saveOk : String → Bool) (ds : ℚ) (vocab : List WordEntry)
    (disk : List String) : SweepState :=
  ensure_entries synth saveOk AUDIO_CHAR_DIR ds
    (vocab.map fun e => (e.character, e.audio_file_name)) disk

/-- Embeds `ensure_sentence_audio_files_exist` (laoshi.py lines 290–366):
the sentence sweep, over `audio/pro`. -/
def ensure_sentence_audio_files_exist (synth : String → ℚ → Option (List Nat))
    (saveOk : String → Bool) (ds : ℚ) (sentences : List SentenceEntry)
    (disk : List String) : SweepState :=
  ensure_entries synth saveOk AUDIO_PRO_DIR ds
    (sentences.map fun e => (e.sentence_text, e.audio_file_name)) disk

/-- The sweep's skip test for a word record: Python
`if not character or not base_audio_file_name`. -/
def word_entry_incomplete (e : WordEntry) : Bool :=
  decide (e.character = "" ∨ e.audio_file_name = "")

/-- The sweep's skip test for a sentence record. -/
def sentence_entry_incomplete (e : SentenceEntry) : Bool :=
  decide (e.sentence_text = "" ∨ e.audio_file_name = "")

/-- The generation loop of the interactive create flows: for each variant
(in `speeds_to_generate` order, paths precomputed and paired with speeds),
call the TTS client; on falsy audio data or a failed file write, stop at
once with failure; otherwise write the file and record the path in
`generated_paths_for_this_item`.  Returns (disk, generated paths, success
flag). -/
def create_gen_loop (synth : ℚ → Option (List Nat)) (saveOk : String → Bool) :
    List (String × ℚ) → List String → List String →
      List String × List String × Bool
  | [], disk, gen => (disk, gen, true)
  | (path, speed) :: rest, disk, gen =>
    match synth speed with
    | some bs =>
      if bs = [] then (disk, gen, false)
      else if saveOk path then
        create_gen_loop synth saveOk rest (path :: disk) (gen ++ [path])
      else (disk, gen, false)
    | none => (disk, gen, false)

/-- Result of processing one new entry in an interactive create flow. -/
structure CreateResult (α : Type) where
  disk : List String
  store : List α
  appended : Bool
deriving DecidableEq

/-- The per-entry creation step shared by `update_word_vocab_interactive`
(laoshi.py lines 429–476, with `dir = AUDIO_CHAR_DIR` and a `WordEntry`
store) and `update_sentence_vocab_interactive` (lines 538–581, with
`dir = AUDIO_PRO_DIR` and a `SentenceEntry` store), after the final base
filename has been chosen: generate all three speed variants in order,
breaking at the first synthesis or save failure; on full success append the
entry to the store, otherwise delete every file written for this entry
(`os.remove` over `generated_paths_for_this_item`) and leave the store
unchanged. -/
def reconcile_on_create {α : Type} (synth : ℚ → Option (List Nat))
    (saveOk : String → Bool) (ds : ℚ) (dir finalName : String) (entry : α)
    (disk : List String) (store : List α) : CreateResult α :=
  let se := stemExt finalName
  let paths := (speeds_to_generate ds).map
    (fun ts => (variant_audio_path dir se.1 ts.1 se.2, ts.2))
  let r := create_gen_loop synth saveOk paths disk []
  if r.2.2 then ⟨r.1, store ++ [entry], true⟩
  else ⟨r.1.filter (fun p => !(decide (p ∈ r.2.1))), store, false⟩

/-- The three on-disk artifact paths of an entry whose stored base audio
name is `finalName`. -/
def entry_artifact_paths (dir finalName : String) : List String :=
  let se := stemExt finalName
  [variant_audio_path dir se.1 DEFAULT_SPEED_TAG se.2,
   variant_audio_path dir se.1 SLOWER_SPEED_TAG se.2,
   variant_audio_path dir se.1 EXTRA_SLOW_SPEED_TAG se.2]

/-- The index list `[i for i, conf in enumerate(SPEED_CONFIGURATIONS) if
conf["value"] == DEFAULT_KOKORO_SPEED]` built in `run_dictation_pro`. -/
def default_speed_matches : List Nat :=
  (List.range SPEED_CONFIGURATIONS.length).filter
    (fun i => decide ((SPEED_CONFIGURATIONS.getD i ⟨0, ""⟩).value = DEFAULT_KOKORO_SPEED))

/-- Initial speed index of a dictation-pro session (laoshi.py lines
845–850): the first index whose value equals `DEFAULT_KOKORO_SPEED`,
falling back to 0 (the slowest) on `IndexError`. -/
def initial_speed_index : Nat :=
  default_speed_matches.headD 0

/-- The default-speed index recomputed inside the playback fallback
(laoshi.py line 877); the same list head (the source indexes it without a
fallback, and the list is provably non-empty). -/
def default_speed_config_idx : Nat :=
  default_speed_matches.headD 0

/-- Embeds `play_current_sentence_audio` (laoshi.py lines 868–893): resolve
the artifact for the current speed index; if that file is absent fall back
to the default-variant file; if that is also absent report failure without
playing.  `playOk` tells whether `playsound` succeeds on a path.  The first
component is the path actually handed to `playsound` (exposed for
specification; the source returns only the success flag). -/
def play_current_sentence_audio (disk : List String) (playOk : String → Bool)
    (base_name_no_ext ext : String) (current_speed_index : Nat) :
    Option String × Bool :=
  let conf := SPEED_CONFIGURATIONS.getD current_speed_index ⟨0, ""⟩
  let p := variant_audio_path AUDIO_PRO_DIR base_name_no_ext conf.tag ext
  if p ∈ disk then (some p, playOk p)
  else
    let dconf := SPEED_CONFIGURATIONS.getD default_speed_config_idx ⟨0, ""⟩
    let dp := variant_audio_path AUDIO_PRO_DIR base_name_no_ext dconf.tag ext
    if dp ∈ disk then (some dp, playOk dp)
    else (none, false)

/-- The events that drive the state of one dictation-pro session: the
listening-loop keys (left/right speed cycling, space replay, the reveal
key), advancing past a revealed sentence, and the practice-again choices at
the end of the shuffled sequence. -/
inductive ProEvent where
  | keyLeft
  | keyRight
  | keySpace
  | keyEnter
  | keyQuit
  | continueNext
  | practiceAgainYes
  | practiceAgainNo
deriving DecidableEq

/-- The mutable session state of `run_dictation_pro`. -/
structure ProState where
  current_item_idx : Nat
  current_speed_index : Nat
deriving DecidableEq

/-- The state updates of `run_dictation_pro` (laoshi.py lines 908–957):
left/right cycle the speed index with wrap-around in both directions
(Python `(i - 1 + len) % len` and `(i + 1) % len`); space replays and
enter reveals without touching the state; advancing past a revealed
sentence increments only the item index; choosing practice-again resets the
item index to 0 for a fresh shuffle and intentionally preserves the speed
index; declining sets the item index to the total so the loop ends. -/
def pro_step (total : Nat) (s : ProState) : ProEvent → ProState
  | ProEvent.keyLeft =>
    { s with current_speed_index :=
        (s.current_speed_index + SPEED_CONFIGURATIONS.length - 1) %
          SPEED_CONFIGURATIONS.length }
  | ProEvent.keyRight =>
    { s with current_speed_index :=
        (s.current_speed_index + 1) % SPEED_CONFIGURATIONS.length }
  | ProEvent.keySpace => s
  | ProEvent.keyEnter => s
  | ProEvent.keyQuit => s
  | ProEvent.continueNext =>
    { s with current_item_idx := s.current_item_idx + 1 }
  | ProEvent.practiceAgainYes => { s with current_item_idx := 0 }
  | ProEvent.practiceAgainNo => { s with current_item_idx := total }

/-- The completeness check of the word drill (laoshi.py line 768):
`all([char, pinyin, character_meaning, base_audio_file_name])`. -/
def word_entry_complete (e : WordEntry) : Bool :=
  decide (¬(e.character = "" ∨ e.pinyin = "" ∨ e.character_meaning = "" ∨
    e.audio_file_name = ""))

/-- The default-speed audio path the word drill plays (laoshi.py lines
773–777). -/
def word_default_audio_path (e : WordEntry) : String :=
  let se := stemExt e.audio_file_name
  variant_audio_path AUDIO_CHAR_DIR se.1 DEFAULT_SPEED_TAG se.2

/-- One full pass of the word-drill item loop (laoshi.py lines 758–816)
over an already-shuffled list, under successful playback and no quit:
incomplete entries and entries whose default-speed file is absent are
skipped with a message; every other entry is presented (listen, then
reveal).  Returns the presented entries in order. -/
def dictation_pass (disk : List String) : List WordEntry → List WordEntry
  | [] => []
  | e :: rest =>
    if word_entry_complete e then
      if word_default_audio_path e ∈ disk then e :: dictation_pass disk rest
      else dictation_pass disk rest
    else dictation_pass disk rest

/-- One full pass of the dictation-pro item loop (laoshi.py lines 852–944)
over an already-shuffled list, under no quit and no speed-key events (the
speed index stays `idx`): incomplete entries are skipped; an entry whose
initial playback fails is skipped after the user confirms; every other
entry is presented.  Returns the presented entries in order. -/
def dictation_pro_pass (disk : List String) (playOk : String → Bool) (idx : Nat) :
    List SentenceEntry → List SentenceEntry
  | [] => []
  | e :: rest =>
    if sentence_entry_incomplete e then dictation_pro_pass disk playOk idx rest
    else
      let se := stemExt e.audio_file_name
      if (play_current_sentence_audio disk playOk se.1 se.2 idx).2 then
        e :: dictation_pro_pass disk playOk idx rest
      else dictation_pro_pass disk playOk idx rest

/-- Decimal digit characters of a natural number, fuel-bounded so that the
definition is structural (the fuel `n + 1` always suffices since the
argument shrinks by a factor of ten each step). -/
def decReprAux : Nat → Nat → List Char
  | 0, _ => []
  | fuel + 1, n =>
    if n < 10 then [Nat.digitChar n]
    else decReprAux fuel (n / 10) ++ [Nat.digitChar (n % 10)]

/-- Decimal rendering of a natural number, as Python `str` renders the
disambiguation counter inside the f-strings of the create flows. -/
def decRepr (n : Nat) : List Char :=
  decReprAux (n + 1) n

/-- Embeds `sanitize_filename` (laoshi.py lines 127–130): replace spaces
with underscores, keep only alphanumerics, underscore and hyphen (Python
`str.isalnum` modelled by `Char.isAlphanum`), and strip trailing
whitespace. -/
def sanitize_filename (name : String) : String :=
  let replaced := name.data.map (fun c => if c = ' ' then '_' else c)
  let kept := replaced.filter (fun c => c.isAlphanum || c == '_' || c == '-')
  String.mk ((kept.reverse.dropWhile (fun c => c.isWhitespace)).reverse)

/-- The `while final_base_audio_filename_for_csv in
current_audio_filenames_in_csv` probe loop of the create flows, with the
counter starting at 1: while the current candidate is taken, move to the
next generated candidate.  The loop is fuel-bounded to make it structural;
fuel `existing.length + 1` is enough to reach the first free candidate
because the candidates are pairwise distinct. -/
def probe_name (mk : Nat → String) (existing : List String) :
    Nat → Nat → String → String
  | 0, _, cur => cur
  | fuel + 1, counter, cur =>
    if cur ∈ existing then probe_name mk existing fuel (counter + 1) (mk counter)
    else cur

/-- Word disambiguation candidate at counter `k`:
`f"{base_filename_sanitized}_{pinyin_sanitized}_{counter}.mp3"`
(laoshi.py line 426). -/
def word_candidate (base pin : String) (k : Nat) : String :=
  base ++ "_" ++ pin ++ "_" ++ String.mk (decRepr k) ++ ".mp3"

/-- Sentence disambiguation candidate at counter `k`:
`f"{base_filename_sanitized}_{counter}.mp3"` (laoshi.py line 535). -/
def sentence_candidate (base : String) (k : Nat) : String :=
  base ++ "_" ++ String.mk (decRepr k) ++ ".mp3"

/-- The final stored base filename chosen by
`update_word_vocab_interactive` (laoshi.py lines 418–427): sanitize the
idea and the pinyin (`"unknown_pinyin"` when the pinyin is falsy), start
from `base.mp3`, and probe pinyin-and-counter candidates until the name is
not among the `audio_file_name` values of the loaded store. -/
def word_final_audio_name (idea pinyin : String) (existing : List String) : String :=
  let base := sanitize_filename idea
  let pin := if pinyin = "" then "unknown_pinyin" else sanitize_filename pinyin
  probe_name (word_candidate base pin) existing (existing.length + 1) 1 (base ++ ".mp3")

/-- The final stored base filename chosen by
`update_sentence_vocab_interactive` (laoshi.py lines 530–536), with the
simpler numeric-counter candidates. -/
def sentence_final_audio_name (idea : String) (existing : List String) : String :=
  let base := sanitize_filename idea
  probe_name (sentence_candidate base) existing (existing.length + 1) 1 (base ++ ".mp3")

/-- The candidates the probe loop would visit, in order, for a given fuel:
the current name, then the generated candidates from `counter` on. -/
def probe_cands (mk : Nat → String) : Nat → Nat → String → List String
  | 0, _, _ => []
  | fuel + 1, counter, cur => cur :: probe_cands mk fuel (counter + 1) (mk counter)

/-!
Helper lemmas, then claim theorems.
-/

theorem sweep_variant_disk_cases (synth : ℚ → Option (List Nat)) (saveOk : String → Bool)
    (path : String) (speed : ℚ) (disk : List String) :
    (sweep_variant synth saveOk path speed disk).disk = disk ∨
    (sweep_variant synth saveOk path speed disk).disk = path :: disk := by
  unfold sweep_variant
  by_cases h : path ∈ disk
  · rw [if_pos h]
    exact Or.inl rfl
  · rw [if_neg h]
    cases hs : synth speed with
    | none => exact Or.inl rfl
    | some bs =>
      dsimp only
      by_cases hb : bs = []
      · rw [if_pos hb]
        exact Or.inl rfl
      · rw [if_neg hb]
        by_cases hk : saveOk path
        · rw [if_pos hk]
          exact Or.inr rfl
        · rw [if_neg hk]
          exact Or.inl rfl

theorem sweep_variant_present (synth : ℚ → Option (List Nat)) (saveOk : String → Bool)
    (path : String) (speed : ℚ) (disk : List String) (h : path ∈ disk) :
    sweep_variant synth saveOk path speed disk = ⟨disk, 0, 0, true⟩ := by
  unfold sweep_variant
  rw [if_pos h]

theorem sweep_variant_mem_of_no_failure (synth : ℚ → Option (List Nat))
    (saveOk : String → Bool) (path : String) (speed : ℚ) (disk : List String)
    (h : (sweep_variant synth saveOk path speed disk).failed = 0) :
    path ∈ (sweep_variant synth saveOk path speed disk).disk := by
  unfold sweep_variant at h ⊢
  by_cases h1 : path ∈ disk
  · rw [if_pos h1]
    exact h1
  · rw [if_neg h1] at h ⊢
    cases hs : synth speed with
    | none =>
      rw [hs] at h
      simp at h
    | some bs =>
      rw [hs] at h
      dsimp only at h ⊢
      by_cases hb : bs = []
      · rw [if_pos hb] at h
        exact absurd h (by simp)
      · rw [if_neg hb] at h ⊢
        by_cases hk : saveOk path
        · rw [if_pos hk]
          exact List.mem_cons_self path disk
        · rw [if_neg hk] at h
          exact absurd h (by simp)

theorem sweep_entry_disk_mono (synth : ℚ → Option (List Nat)) (saveOk : String → Bool)
    (dir stem ext : String) (speeds : List (String × ℚ)) (disk : List String)
    (p : String) (hp : p ∈ disk) :
    p ∈ (sweep_entry synth saveOk dir stem ext speeds disk).disk := by
  induction speeds generalizing disk with
  | nil => exact hp
  | cons ts rest ih =>
    obtain ⟨tag, speed⟩ := ts
    simp only [sweep_entry]
    apply ih
    rcases sweep_variant_disk_cases synth saveOk
        (variant_audio_path dir stem tag ext) speed disk with h | h <;> rw [h]
    · exact hp
    · exact List.mem_cons_of_mem _ hp

theorem sweep_entry_mem_of_no_failure (synth : ℚ → Option (List Nat))
    (saveOk : String → Bool) (dir stem ext : String) (speeds : List (String × ℚ))
    (disk : List String)
    (h : (sweep_entry synth saveOk dir stem ext speeds disk).failed = 0) :
    ∀ ts ∈ speeds,
      variant_audio_path dir stem ts.1 ext ∈
        (sweep_entry synth saveOk dir stem ext speeds disk).disk := by
  induction speeds generalizing disk with
  | nil => intro ts hts; exact absurd hts (List.not_mem_nil ts)
  | cons hd rest ih =>
    obtain ⟨tag, speed⟩ := hd
    simp only [sweep_entry] at h ⊢
    have hv : (sweep_variant synth saveOk (variant_audio_path dir stem tag ext)
        speed disk).failed = 0 := by omega
    have hr : (sweep_entry synth saveOk dir stem ext rest
        (sweep_variant synth saveOk (variant_audio_path dir stem tag ext)
          speed disk).disk).failed = 0 := by omega
    intro ts hts
    rcases List.mem_cons.mp hts with rfl | hts'
    · exact sweep_entry_disk_mono synth saveOk dir stem ext rest _ _
        (sweep_variant_mem_of_no_failure synth saveOk _ speed disk hv)
    · exact ih _ hr ts hts'

theorem sweep_entry_all_present (synth : ℚ → Option (List Nat)) (saveOk : String → Bool)
    (dir stem ext : String) (speeds : List (String × ℚ)) (disk : List String)
    (h : ∀ ts ∈ speeds, variant_audio_path dir stem ts.1 ext ∈ disk) :
    sweep_entry synth saveOk dir stem ext speeds disk = ⟨disk, 0, 0, true⟩ := by
  induction speeds with
  | nil => rfl
  | cons hd rest ih =>
    obtain ⟨tag, speed⟩ := hd
    simp only [sweep_entry]
    rw [sweep_variant_present synth saveOk _ speed disk
      (h (tag, speed) (List.mem_cons_self _ _))]
    rw [ih (fun ts hts => h ts (List.mem_cons_of_mem _ hts))]
    rfl

theorem ensure_entries_disk_mono (synth : String → ℚ → Option (List Nat))
    (saveOk : String → Bool) (dir : String) (ds : ℚ)
    (entries : List (String × String)) (disk : List String) (p : String)
    (hp : p ∈ disk) :
    p ∈ (ensure_entries synth saveOk dir ds entries disk).disk := by
  induction entries generalizing disk with
  | nil => exact hp
  | cons hd rest ih =>
    obtain ⟨key, audioName⟩ := hd
    simp only [ensure_entries]
    by_cases hskip : key = "" ∨ audioName = ""
    · rw [if_pos hskip]
      exact ih disk hp
    · rw [if_neg hskip]
      exact ih _ (sweep_entry_disk_mono _ saveOk dir _ _ _ disk p hp)

theorem ensure_entries_mem_of_no_failure (synth : String → ℚ → Option (List Nat))
    (saveOk : String → Bool) (dir : String) (ds : ℚ)
    (entries : List (String × String)) (disk : List String)
    (h : (ensure_entries synth saveOk dir ds entries disk).report.individual_files_failed_generation = 0) :
    ∀ e ∈ entries, ¬(e.1 = "" ∨ e.2 = "") →
      ∀ ts ∈ speeds_to_generate ds,
        variant_audio_path dir (stemExt e.2).1 ts.1 (stemExt e.2).2 ∈
          (ensure_entries synth saveOk dir ds entries disk).disk := by
  induction entries generalizing disk with
  | nil => intro e he; exact absurd he (List.not_mem_nil e)
  | cons hd rest ih =>
    obtain ⟨key, audioName⟩ := hd
    intro e he hcomplete ts hts
    simp only [ensure_entries] at h ⊢
    by_cases hskip : key = "" ∨ audioName = ""
    · rw [if_pos hskip] at h ⊢
      dsimp only at h ⊢
      rcases List.mem_cons.mp he with rfl | he'
      · exact absurd hskip hcomplete
      · exact ih disk h e he' hcomplete ts hts
    · rw [if_neg hskip] at h ⊢
      dsimp only at h ⊢
      have he0 : (sweep_entry (synth key) saveOk dir (stemExt audioName).1
          (stemExt audioName).2 (speeds_to_generate ds) disk).failed = 0 := by omega
      have hr0 : (ensure_entries synth saveOk dir ds rest
          (sweep_entry (synth key) saveOk dir (stemExt audioName).1
            (stemExt audioName).2 (speeds_to_generate ds) disk).disk).report.individual_files_failed_generation = 0 := by
        omega
      rcases List.mem_cons.mp he with rfl | he'
      · exact ensure_entries_disk_mono synth saveOk dir ds rest _ _
          (sweep_entry_mem_of_no_failure _ saveOk dir _ _ _ disk he0 ts hts)
      · exact ih _ hr0 e he' hcomplete ts hts

theorem ensure_entries_all_present (synth : String → ℚ → Option (List Nat))
    (saveOk : String → Bool) (dir : String) (ds : ℚ)
    (entries : List (String × String)) (disk : List String)
    (h : ∀ e ∈ entries, ¬(e.1 = "" ∨ e.2 = "") →
      ∀ ts ∈ speeds_to_generate ds,
        variant_audio_path dir (stemExt e.2).1 ts.1 (stemExt e.2).2 ∈ disk) :
    ensure_entries synth saveOk dir ds entries disk =
      ⟨disk,
        entries.countP (fun e => !(decide (e.1 = "" ∨ e.2 = ""))),
        0, 0, 0,
        entries.countP (fun e => decide (e.1 = "" ∨ e.2 = ""))⟩ := by
  induction entries with
  | nil => rfl
  | cons hd rest ih =>
    obtain ⟨key, audioName⟩ := hd
    simp only [ensure_entries]
    have hrest : ∀ e ∈ rest, ¬(e.1 = "" ∨ e.2 = "") →
        ∀ ts ∈ speeds_to_generate ds,
          variant_audio_path dir (stemExt e.2).1 ts.1 (stemExt e.2).2 ∈ disk :=
      fun e he => h e (List.mem_cons_of_mem _ he)
    by_cases hskip : key = "" ∨ audioName = ""
    · rw [if_pos hskip, ih hrest]
      rcases hskip with hk | hk <;> simp [List.countP_cons, hk]
    · rw [if_neg hskip,
        sweep_entry_all_present _ saveOk dir _ _ _ disk
          (h (key, audioName) (List.mem_cons_self _ _) hskip),
        ih hrest]
      rcases not_or.mp hskip with ⟨hk1, hk2⟩
      simp [List.countP_cons, hk1, hk2]

theorem countP_not_add_countP {α : Type} (l : List α) (p : α → Bool) :
    l.countP (fun e => !(p e)) + l.countP p = l.length := by
  induction l with
  | nil => rfl
  | cons hd rest ih =>
    simp only [List.countP_cons, List.length_cons]
    cases hp : p hd <;> simp [hp] <;> omega

theorem ensure_entries_idempotent (synth : String → ℚ → Option (List Nat))
    (saveOk : String → Bool) (dir : String) (ds : ℚ)
    (entries : List (String × String)) (disk : List String)
    (h : (ensure_entries synth saveOk dir ds entries disk).report.individual_files_failed_generation = 0) :
    ensure_entries synth saveOk dir ds entries
        (ensure_entries synth saveOk dir ds entries disk).disk =
      ⟨(ensure_entries synth saveOk dir ds entries disk).disk,
        entries.countP (fun e => !(decide (e.1 = "" ∨ e.2 = ""))),
        0, 0, 0,
        entries.countP (fun e => decide (e.1 = "" ∨ e.2 = ""))⟩ :=
  ensure_entries_all_present synth saveOk dir ds entries _
    (fun e he hc ts hts =>
      ensure_entries_mem_of_no_failure synth saveOk dir ds entries disk h e he hc ts hts)

theorem sweep_variant_count (synth : ℚ → Option (List Nat)) (saveOk : String → Bool)
    (path : String) (speed : ℚ) (disk : List String) :
    (sweep_variant synth saveOk path speed disk).generated +
      (sweep_variant synth saveOk path speed disk).failed =
      (if path ∈ disk then 0 else 1) := by
  unfold sweep_variant
  by_cases h : path ∈ disk
  · rw [if_pos h, if_pos h]
    rfl
  · rw [if_neg h, if_neg h]
    cases hs : synth speed with
    | none => rfl
    | some bs =>
      dsimp only
      by_cases hb : bs = []
      · rw [if_pos hb]
        rfl
      · rw [if_neg hb]
        by_cases hk : saveOk path
        · rw [if_pos hk]
          rfl
        · rw [if_neg hk]
          rfl

theorem sweep_entry_gen_add_failed (synth : ℚ → Option (List Nat))
    (saveOk : String → Bool) (dir stem ext : String) (speeds : List (String × ℚ))
    (disk : List String)
    (hnd : (speeds.map (fun ts => variant_audio_path dir stem ts.1 ext)).Nodup) :
    (sweep_entry synth saveOk dir stem ext speeds disk).generated +
      (sweep_entry synth saveOk dir stem ext speeds disk).failed =
      (speeds.map (fun ts => variant_audio_path dir stem ts.1 ext)).countP
        (fun p => !(decide (p ∈ disk))) := by
  induction speeds generalizing disk with
  | nil => rfl
  | cons hd rest ih =>
    obtain ⟨tag, speed⟩ := hd
    simp only [List.map_cons, List.nodup_cons, List.mem_map] at hnd
    obtain ⟨hhd, hrest⟩ := hnd
    simp only [sweep_entry, List.map_cons, List.countP_cons]
    have hv := sweep_variant_count synth saveOk
      (variant_audio_path dir stem tag ext) speed disk
    have hih := ih (sweep_variant synth saveOk
      (variant_audio_path dir stem tag ext) speed disk).disk hrest
    have hcong : (rest.map (fun ts => variant_audio_path dir stem ts.1 ext)).countP
        (fun p => !(decide (p ∈ (sweep_variant synth saveOk
          (variant_audio_path dir stem tag ext) speed disk).disk))) =
        (rest.map (fun ts => variant_audio_path dir stem ts.1 ext)).countP
        (fun p => !(decide (p ∈ disk))) := by
      apply List.countP_congr
      intro q hq
      rcases sweep_variant_disk_cases synth saveOk
          (variant_audio_path dir stem tag ext) speed disk with hc | hc <;> rw [hc]
      have hqne : q ≠ variant_audio_path dir stem tag ext := by
        intro hqeq
        obtain ⟨ts, hts, hts'⟩ := List.mem_map.mp hq
        exact hhd ⟨ts, hts, hts'.trans hqeq⟩
      simp [List.mem_cons, hqne]
    rw [hcong] at hih
    by_cases hmem : variant_audio_path dir stem tag ext ∈ disk
    · rw [if_pos hmem] at hv
      have hd1 : (!(decide (variant_audio_path dir stem tag ext ∈ disk))) = false := by
        simp [hmem]
      rw [hd1]
      simp only [Bool.false_eq_true, if_false]
      omega
    · rw [if_neg hmem] at hv
      have hd1 : (!(decide (variant_audio_path dir stem tag ext ∈ disk))) = true := by
        simp [hmem]
      rw [hd1]
      simp only [if_true]
      omega

theorem ensure_entries_classified (synth : String → ℚ → Option (List Nat))
    (saveOk : String → Bool) (dir : String) (ds : ℚ)
    (entries : List (String × String)) (disk : List String) :
    (ensure_entries synth saveOk dir ds entries disk).report.items_all_speeds_found +
      (ensure_entries synth saveOk dir ds entries disk).report.items_had_missing_speeds +
      (ensure_entries synth saveOk dir ds entries disk).report.skipped_incomplete_csv =
      entries.length := by
  induction entries generalizing disk with
  | nil => rfl
  | cons hd rest ih =>
    obtain ⟨key, audioName⟩ := hd
    simp only [ensure_entries, List.length_cons]
    by_cases hskip : key = "" ∨ audioName = ""
    · rw [if_pos hskip]
      dsimp only
      have := ih disk
      omega
    · rw [if_neg hskip]
      dsimp only
      have := ih (sweep_entry (synth key) saveOk dir (stemExt audioName).1
        (stemExt audioName).2 (speeds_to_generate ds) disk).disk
      by_cases hap : (sweep_entry (synth key) saveOk dir (stemExt audioName).1
          (stemExt audioName).2 (speeds_to_generate ds) disk).all_present = true
      · rw [if_pos hap, if_pos hap]
        omega
      · rw [if_neg hap, if_neg hap]
        omega

theorem variant_audio_path_length (dir stem tag ext : String) :
    (variant_audio_path dir stem tag ext).length =
      dir.length + 1 + (stem.length + tag.length + ext.length) := by
  simp only [variant_audio_path, String.length_append]
  have : ("/" : String).length = 1 := rfl
  omega

theorem variant_paths_nodup (dir stem ext : String) (ds : ℚ) :
    ((speeds_to_generate ds).map
      (fun ts => variant_audio_path dir stem ts.1 ext)).Nodup := by
  have hne : ∀ t1 t2 : String, t1.length ≠ t2.length →
      variant_audio_path dir stem t1 ext ≠ variant_audio_path dir stem t2 ext := by
    intro t1 t2 hlen heq
    have := congrArg String.length heq
    rw [variant_audio_path_length, variant_audio_path_length] at this
    omega
  have h1 : (DEFAULT_SPEED_TAG : String).length = 8 := by decide
  have h2 : (SLOWER_SPEED_TAG : String).length = 5 := by decide
  have h3 : (EXTRA_SLOW_SPEED_TAG : String).length = 7 := by decide
  have h12 : variant_audio_path dir stem DEFAULT_SPEED_TAG ext ≠
      variant_audio_path dir stem SLOWER_SPEED_TAG ext := hne _ _ (by omega)
  have h13 : variant_audio_path dir stem DEFAULT_SPEED_TAG ext ≠
      variant_audio_path dir stem EXTRA_SLOW_SPEED_TAG ext := hne _ _ (by omega)
  have h23 : variant_audio_path dir stem SLOWER_SPEED_TAG ext ≠
      variant_audio_path dir stem EXTRA_SLOW_SPEED_TAG ext := hne _ _ (by omega)
  simp only [speeds_to_generate, List.map_cons, List.map_nil]
  refine List.nodup_cons.mpr ⟨?_, List.nodup_cons.mpr ⟨?_,
    List.nodup_cons.mpr ⟨?_, List.nodup_nil⟩⟩⟩
  · intro hmem
    rcases List.mem_cons.mp hmem with h | h
    · exact h12 h
    · rcases List.mem_cons.mp h with h' | h'
      · exact h13 h'
      · exact List.not_mem_nil _ h'
  · intro hmem
    rcases List.mem_cons.mp hmem with h | h
    · exact h23 h
    · exact List.not_mem_nil _ h
  · exact List.not_mem_nil _

/-- C7: with a store holding exactly the word 你好 with base audio name
hello.mp3 and only hello_default.mp3 on disk, an always-successful
synthesizer makes the sweep generate hello_slow.mp3 and hello_slower.mp3,
leave hello_default.mp3 in place untouched, and report 2 files generated,
0 failed, 1 item with missing speeds (and 0 items fully present, 0
skipped). -/
theorem claim_C7 :
    (ensure_audio_files_exist (fun _ _ => some [1]) (fun _ => true) 1
        [⟨"你好", "nǐ hǎo", "hello", "hello.mp3"⟩]
        [AUDIO_CHAR_DIR ++ "/hello_default.mp3"]) =
      ⟨[AUDIO_CHAR_DIR ++ "/hello_slower.mp3",
        AUDIO_CHAR_DIR ++ "/hello_slow.mp3",
        AUDIO_CHAR_DIR ++ "/hello_default.mp3"],
       ⟨0, 1, 2, 0, 0⟩⟩ := by
  decide

/-- C9 counterexample: a 200 response whose `Content-Type` header is
`AUDIO/MPEG` contains neither "audio/mpeg" nor "application/octet-stream"
and is not empty, yet `generate_tts_audio` returns the body bytes instead of
the failure value `None`, because the code lowercases the header before the
containment test. -/
theorem claim_C9_counterexample :
    strContains "AUDIO/MPEG" "audio/mpeg" = false ∧
    strContains "AUDIO/MPEG" "application/octet-stream" = false ∧
    "AUDIO/MPEG" ≠ "" ∧
    generate_tts_audio (some ⟨200, some "AUDIO/MPEG", [7]⟩) = some [7] := by
  refine ⟨by decide, by decide, by decide, ?_⟩
  decide

/-- C9 (amended): the synthesis client returns the body bytes of a 200
response exactly when the lowercased `Content-Type` (empty string when the
header is absent) contains "audio/mpeg" or "application/octet-stream" or is
empty; every other content type on a 200 response, every non-200 status and
every transport exception (`resp = none`) yields the failure value `none`. -/
theorem claim_C9 (resp : Option HttpResponse) (bs : List Nat) :
    generate_tts_audio resp = some bs ↔
      ∃ r : HttpResponse, resp = some r ∧ bs = r.content ∧ r.status = 200 ∧
        (strContains (strToLower (r.contentType.getD "")) "audio/mpeg" = true ∨
         strContains (strToLower (r.contentType.getD "")) "application/octet-stream" = true ∨
         strToLower (r.contentType.getD "") = "") := by
  cases resp with
  | none => simp [generate_tts_audio]
  | some r =>
    simp only [generate_tts_audio]
    split_ifs with hs hc
    · simp only [Bool.or_eq_true, decide_eq_true_eq] at hc
      constructor
      · intro h
        exact ⟨r, rfl, (Option.some.injEq _ _ ▸ h).symm, hs, by tauto⟩
      · rintro ⟨r', hr, hbs, -, -⟩
        cases hr
        exact congrArg some hbs.symm
    · simp only [Bool.or_eq_true, decide_eq_true_eq] at hc
      push_neg at hc
      obtain ⟨⟨hc1, hc2⟩, hc3⟩ := hc
      constructor
      · intro h
        exact h.elim
      · rintro ⟨r', hr, -, -, hacc⟩
        cases hr
        rcases hacc with h | h | h
        · exact absurd h hc1
        · exact absurd h hc2
        · exact absurd h hc3
    · constructor
      · intro h
        exact h.elim
      · rintro ⟨r', hr, -, hs200, -⟩
        cases hr
        exact absurd hs200 hs

theorem create_gen_loop_gen_mono (synth : ℚ → Option (List Nat)) (saveOk : String → Bool)
    (paths : List (String × ℚ)) (disk gen : List String) (p : String) (hp : p ∈ gen) :
    p ∈ (create_gen_loop synth saveOk paths disk gen).2.1 := by
  induction paths generalizing disk gen with
  | nil => exact hp
  | cons hd rest ih =>
    obtain ⟨path, speed⟩ := hd
    simp only [create_gen_loop]
    cases hs : synth speed with
    | none => exact hp
    | some bs =>
      dsimp only
      by_cases hb : bs = []
      · rw [if_pos hb]
        exact hp
      · rw [if_neg hb]
        by_cases hk : saveOk path
        · rw [if_pos hk]
          exact ih _ _ (List.mem_append_left _ hp)
        · rw [if_neg hk]
          exact hp

theorem create_gen_loop_disk_mono (synth : ℚ → Option (List Nat)) (saveOk : String → Bool)
    (paths : List (String × ℚ)) (disk gen : List String) (p : String) (hp : p ∈ disk) :
    p ∈ (create_gen_loop synth saveOk paths disk gen).1 := by
  induction paths generalizing disk gen with
  | nil => exact hp
  | cons hd rest ih =>
    obtain ⟨path, speed⟩ := hd
    simp only [create_gen_loop]
    cases hs : synth speed with
    | none => exact hp
    | some bs =>
      dsimp only
      by_cases hb : bs = []
      · rw [if_pos hb]
        exact hp
      · rw [if_neg hb]
        by_cases hk : saveOk path
        · rw [if_pos hk]
          exact ih _ _ (List.mem_cons_of_mem _ hp)
        · rw [if_neg hk]
          exact hp

theorem create_gen_loop_disk_origin (synth : ℚ → Option (List Nat)) (saveOk : String → Bool)
    (paths : List (String × ℚ)) (disk gen : List String) (p : String)
    (hp : p ∈ (create_gen_loop synth saveOk paths disk gen).1) :
    p ∈ disk ∨ p ∈ (create_gen_loop synth saveOk paths disk gen).2.1 := by
  induction paths generalizing disk gen with
  | nil => exact Or.inl hp
  | cons hd rest ih =>
    obtain ⟨path, speed⟩ := hd
    simp only [create_gen_loop] at hp ⊢
    cases hs : synth speed with
    | none =>
      rw [hs] at hp
      exact Or.inl hp
    | some bs =>
      rw [hs] at hp
      dsimp only at hp ⊢
      by_cases hb : bs = []
      · rw [if_pos hb] at hp ⊢
        exact Or.inl hp
      · rw [if_neg hb] at hp ⊢
        by_cases hk : saveOk path
        · rw [if_pos hk] at hp ⊢
          rcases ih (path :: disk) (gen ++ [path]) hp with hin | hin
          · rcases List.mem_cons.mp hin with rfl | hin'
            · exact Or.inr (create_gen_loop_gen_mono synth saveOk rest _ _ _
                (List.mem_append_right _ (List.mem_singleton_self _)))
            · exact Or.inl hin'
          · exact Or.inr hin
        · rw [if_neg hk] at hp ⊢
          exact Or.inl hp

theorem create_gen_loop_success_mem (synth : ℚ → Option (List Nat)) (saveOk : String → Bool)
    (paths : List (String × ℚ)) (disk gen : List String)
    (h : (create_gen_loop synth saveOk paths disk gen).2.2 = true) :
    ∀ pr ∈ paths, pr.1 ∈ (create_gen_loop synth saveOk paths disk gen).1 := by
  induction paths generalizing disk gen with
  | nil => intro pr hpr; exact absurd hpr (List.not_mem_nil pr)
  | cons hd rest ih =>
    obtain ⟨path, speed⟩ := hd
    intro pr hpr
    simp only [create_gen_loop] at h ⊢
    cases hs : synth speed with
    | none =>
      rw [hs] at h
      exact absurd h (by simp)
    | some bs =>
      rw [hs] at h
      dsimp only at h ⊢
      by_cases hb : bs = []
      · rw [if_pos hb] at h
        exact absurd h (by simp)
      · rw [if_neg hb] at h ⊢
        by_cases hk : saveOk path
        · rw [if_pos hk] at h ⊢
          rcases List.mem_cons.mp hpr with rfl | hpr'
          · exact create_gen_loop_disk_mono synth saveOk rest _ _ _
              (List.mem_cons_self _ _)
          · exact ih _ _ h pr hpr'
        · rw [if_neg hk] at h
          exact absurd h (by simp)

/-- C2: idempotent reconciliation.  If a first run of the word sweep (and of
the sentence sweep) reports zero failed generations — a synthesizer and
filesystem that succeeded wherever needed — then a second run on the
resulting artifact set leaves the artifact set exactly unchanged, generates
zero new files, fails zero, counts zero items as having had missing speeds,
counts every complete (non-skipped) entry as having all speeds already
present, and skips exactly the incomplete entries; complete and skipped
counts sum to the store size. -/
theorem claim_C2
    (synth : String → ℚ → Option (List Nat)) (saveOk : String → Bool) (ds : ℚ)
    (vocab : List WordEntry) (sentences : List SentenceEntry)
    (diskW diskS : List String)
    (hw : (ensure_audio_files_exist synth saveOk ds vocab diskW).report.individual_files_failed_generation = 0)
    (hsen : (ensure_sentence_audio_files_exist synth saveOk ds sentences diskS).report.individual_files_failed_generation = 0) :
    ensure_audio_files_exist synth saveOk ds vocab
        (ensure_audio_files_exist synth saveOk ds vocab diskW).disk =
      ⟨(ensure_audio_files_exist synth saveOk ds vocab diskW).disk,
        vocab.countP (fun e => !(word_entry_incomplete e)), 0, 0, 0,
        vocab.countP (fun e => word_entry_incomplete e)⟩ ∧
    vocab.countP (fun e => !(word_entry_incomplete e)) +
        vocab.countP (fun e => word_entry_incomplete e) = vocab.length ∧
    ensure_sentence_audio_files_exist synth saveOk ds sentences
        (ensure_sentence_audio_files_exist synth saveOk ds sentences diskS).disk =
      ⟨(ensure_sentence_audio_files_exist synth saveOk ds sentences diskS).disk,
        sentences.countP (fun e => !(sentence_entry_incomplete e)), 0, 0, 0,
        sentences.countP (fun e => sentence_entry_incomplete e)⟩ ∧
    sentences.countP (fun e => !(sentence_entry_incomplete e)) +
        sentences.countP (fun e => sentence_entry_incomplete e) = sentences.length := by
  refine ⟨?_, countP_not_add_countP vocab _, ?_, countP_not_add_countP sentences _⟩
  · unfold ensure_audio_files_exist at hw ⊢
    rw [ensure_entries_idempotent _ _ _ _ _ _ hw]
    simp only [List.countP_map]
    rfl
  · unfold ensure_sentence_audio_files_exist at hsen ⊢
    rw [ensure_entries_idempotent _ _ _ _ _ _ hsen]
    simp only [List.countP_map]
    rfl

/-- Witness for C2 at a concrete store, artifact set and synthesizer. -/
theorem claim_C2_witness :
    (ensure_audio_files_exist (fun _ _ => some [1]) (fun _ => true) 1
        [⟨"a", "b", "c", "a.mp3"⟩]
        (ensure_audio_files_exist (fun _ _ => some [1]) (fun _ => true) 1
          [⟨"a", "b", "c", "a.mp3"⟩] []).disk).report.individual_files_generated = 0 := by
  have h := claim_C2 (fun _ _ => some [1]) (fun _ => true) 1
    [⟨"a", "b", "c", "a.mp3"⟩] [⟨"s", "s.mp3"⟩] [] [] (by decide) (by decide)
  exact congrArg (fun st => st.report.individual_files_generated) h.1

/-- C6: the sweep is best-effort.  For one entry, the generated and failed
counters together account for every speed variant whose file was absent —
a synthesis or save failure on one variant is counted as failed and does
not stop the remaining variants from being examined (stated for both the
word and the sentence audio directory).  And across entries, every entry is
classified into exactly one of all-speeds-found / had-missing-speeds /
skipped-incomplete, so the three counters always sum to the store size —
no failure aborts the processing of subsequent entries. -/
theorem claim_C6
    (synth : String → ℚ → Option (List Nat)) (saveOk : String → Bool) (ds : ℚ)
    (key stem ext : String) (diskE : List String)
    (vocab : List WordEntry) (sentences : List SentenceEntry)
    (diskW diskS : List String) :
    ((sweep_entry (synth key) saveOk AUDIO_CHAR_DIR stem ext
          (speeds_to_generate ds) diskE).generated +
        (sweep_entry (synth key) saveOk AUDIO_CHAR_DIR stem ext
          (speeds_to_generate ds) diskE).failed =
      ((speeds_to_generate ds).map
          (fun ts => variant_audio_path AUDIO_CHAR_DIR stem ts.1 ext)).countP
        (fun p => !(decide (p ∈ diskE)))) ∧
    ((sweep_entry (synth key) saveOk AUDIO_PRO_DIR stem ext
          (speeds_to_generate ds) diskE).generated +
        (sweep_entry (synth key) saveOk AUDIO_PRO_DIR stem ext
          (speeds_to_generate ds) diskE).failed =
      ((speeds_to_generate ds).map
          (fun ts => variant_audio_path AUDIO_PRO_DIR stem ts.1 ext)).countP
        (fun p => !(decide (p ∈ diskE)))) ∧
    ((ensure_audio_files_exist synth saveOk ds vocab diskW).report.items_all_speeds_found +
        (ensure_audio_files_exist synth saveOk ds vocab diskW).report.items_had_missing_speeds +
        (ensure_audio_files_exist synth saveOk ds vocab diskW).report.skipped_incomplete_csv =
      vocab.length) ∧
    ((ensure_sentence_audio_files_exist synth saveOk ds sentences diskS).report.items_all_speeds_found +
        (ensure_sentence_audio_files_exist synth saveOk ds sentences diskS).report.items_had_missing_speeds +
        (ensure_sentence_audio_files_exist synth saveOk ds sentences diskS).report.skipped_incomplete_csv =
      sentences.length) := by
  refine ⟨?_, ?_, ?_, ?_⟩
  · exact sweep_entry_gen_add_failed _ saveOk AUDIO_CHAR_DIR stem ext _ diskE
      (variant_paths_nodup _ _ _ _)
  · exact sweep_entry_gen_add_failed _ saveOk AUDIO_PRO_DIR stem ext _ diskE
      (variant_paths_nodup _ _ _ _)
  · unfold ensure_audio_files_exist
    have h := ensure_entries_classified synth saveOk AUDIO_CHAR_DIR ds
      (vocab.map fun e => (e.character, e.audio_file_name)) diskW
    rw [List.length_map] at h
    exact h
  · unfold ensure_sentence_audio_files_exist
    have h := ensure_entries_classified synth saveOk AUDIO_PRO_DIR ds
      (sentences.map fun e => (e.sentence_text, e.audio_file_name)) diskS
    rw [List.length_map] at h
    exact h

/-- C1: all-or-nothing interactive create (word and sentence flows, which
share this per-entry step with their respective directory and store).  If
any of the three speed variants fails to synthesize or save, the entry is
not appended to the store and no file written for the entry remains: every
path on disk afterwards was already on disk before.  If all three succeed,
the entry is appended and all three variant artifacts are on disk — the
artifacts exist before the entry is persisted. -/
theorem claim_C1 {α : Type} (synth : ℚ → Option (List Nat)) (saveOk : String → Bool)
    (ds : ℚ) (dir finalName : String) (entry : α) (disk : List String)
    (store : List α) :
    ((reconcile_on_create synth saveOk ds dir finalName entry disk store).appended = false →
      (reconcile_on_create synth saveOk ds dir finalName entry disk store).store = store ∧
      ∀ p, p ∈ (reconcile_on_create synth saveOk ds dir finalName entry disk store).disk →
        p ∈ disk) ∧
    ((reconcile_on_create synth saveOk ds dir finalName entry disk store).appended = true →
      (reconcile_on_create synth saveOk ds dir finalName entry disk store).store =
        store ++ [entry] ∧
      ∀ p ∈ entry_artifact_paths dir finalName,
        p ∈ (reconcile_on_create synth saveOk ds dir finalName entry disk store).disk) := by
  simp only [reconcile_on_create]
  by_cases hok : (create_gen_loop synth saveOk
      ((speeds_to_generate ds).map
        (fun ts => (variant_audio_path dir (stemExt finalName).1 ts.1
          (stemExt finalName).2, ts.2))) disk []).2.2 = true
  · rw [if_pos hok]
    constructor
    · intro hfalse
      exact absurd hfalse (by simp)
    · intro _
      refine ⟨rfl, ?_⟩
      intro p hp
      have hmem := create_gen_loop_success_mem synth saveOk _ disk [] hok
      simp only [entry_artifact_paths, List.mem_cons, List.not_mem_nil, or_false] at hp
      rcases hp with rfl | rfl | rfl
      · exact hmem (variant_audio_path dir (stemExt finalName).1 DEFAULT_SPEED_TAG
          (stemExt finalName).2, ds) (by simp [speeds_to_generate])
      · exact hmem (variant_audio_path dir (stemExt finalName).1 SLOWER_SPEED_TAG
          (stemExt finalName).2, SLOWER_KOKORO_SPEED) (by simp [speeds_to_generate])
      · exact hmem (variant_audio_path dir (stemExt finalName).1 EXTRA_SLOW_SPEED_TAG
          (stemExt finalName).2, EXTRA_SLOW_KOKORO_SPEED) (by simp [speeds_to_generate])
  · rw [if_neg hok]
    constructor
    · intro _
      refine ⟨rfl, ?_⟩
      intro p hp
      have hp' := List.mem_filter.mp hp
      rcases create_gen_loop_disk_origin synth saveOk _ disk [] p hp'.1 with hin | hin
      · exact hin
      · have h2 := hp'.2
        simp only [Bool.not_eq_true', decide_eq_false_iff_not] at h2
        exact absurd hin h2
    · intro htrue
      exact absurd htrue (by simp)

/-- Witness for C1: with a failing synthesizer the entry is not stored, and
with a succeeding synthesizer it is appended. -/
theorem claim_C1_witness :
    (reconcile_on_create (fun _ => none) (fun _ => true) 1 AUDIO_CHAR_DIR
        "w.mp3" ("ni hao" : String) [AUDIO_CHAR_DIR ++ "/other.mp3"] ["old"]).store = ["old"] ∧
    (reconcile_on_create (fun _ => some [1]) (fun _ => true) 1 AUDIO_CHAR_DIR
        "w.mp3" ("ni hao" : String) [] ([] : List String)).store = ["ni hao"] := by
  constructor
  · exact ((claim_C1 (fun _ => none) (fun _ => true) 1 AUDIO_CHAR_DIR "w.mp3"
      ("ni hao" : String) [AUDIO_CHAR_DIR ++ "/other.mp3"] ["old"]).1 (by decide)).1
  · exact ((claim_C1 (fun _ => some [1]) (fun _ => true) 1 AUDIO_CHAR_DIR "w.mp3"
      ("ni hao" : String) [] ([] : List String)).2 (by decide)).1

/-- C8: store append.  For both `save_vocab_entry` and
`save_sentence_entry`: when the backing file is absent or empty the result
is exactly a header row followed by the one new record; when it is present
and non-empty the result is exactly the old contents followed by the one
new record (existing rows unchanged, never updated or deleted); and the
number of header rows grows by one exactly when the file was absent or
empty, and is otherwise unchanged. -/
theorem claim_C8 (file : Option (List VocabLine))
    (c p m a : String) (sfile : Option (List SentenceLine)) (st sa : String) :
    ((file = none ∨ file = some []) →
      save_vocab_entry file c p m a =
        [VocabLine.header, VocabLine.record c p m a]) ∧
    (∀ ls, file = some ls → ls ≠ [] →
      save_vocab_entry file c p m a = ls ++ [VocabLine.record c p m a]) ∧
    ((save_vocab_entry file c p m a).count VocabLine.header =
      (file.getD []).count VocabLine.header +
        (if file.getD [] = [] then 1 else 0)) ∧
    ((sfile = none ∨ sfile = some []) →
      save_sentence_entry sfile st sa =
        [SentenceLine.header, SentenceLine.record st sa]) ∧
    (∀ ls, sfile = some ls → ls ≠ [] →
      save_sentence_entry sfile st sa = ls ++ [SentenceLine.record st sa]) ∧
    ((save_sentence_entry sfile st sa).count SentenceLine.header =
      (sfile.getD []).count SentenceLine.header +
        (if sfile.getD [] = [] then 1 else 0)) := by
  refine ⟨?_, ?_, ?_, ?_, ?_, ?_⟩
  · rintro (rfl | rfl) <;> rfl
  · intro ls hf hne
    subst hf
    simp [save_vocab_entry, List.length_eq_zero, hne]
  · rcases file with - | ls
    · simp [save_vocab_entry]
    · by_cases hls : ls = []
      · subst hls
        simp [save_vocab_entry]
      · simp [save_vocab_entry, List.length_eq_zero, hls, List.count_append]
  · rintro (rfl | rfl) <;> rfl
  · intro ls hf hne
    subst hf
    simp [save_sentence_entry, List.length_eq_zero, hne]
  · rcases sfile with - | ls
    · simp [save_sentence_entry]
    · by_cases hls : ls = []
      · subst hls
        simp [save_sentence_entry]
      · simp [save_sentence_entry, List.length_eq_zero, hls, List.count_append]

/-- Witness for C8 at concrete file states. -/
theorem claim_C8_witness :
    save_vocab_entry (some []) "c" "p" "m" "a.mp3" =
      [VocabLine.header, VocabLine.record "c" "p" "m" "a.mp3"] ∧
    save_sentence_entry (some [SentenceLine.header, SentenceLine.record "s" "s.mp3"])
        "t" "t.mp3" =
      [SentenceLine.header, SentenceLine.record "s" "s.mp3",
       SentenceLine.record "t" "t.mp3"] := by
  have h := claim_C8 (some []) "c" "p" "m" "a.mp3"
    (some [SentenceLine.header, SentenceLine.record "s" "s.mp3"]) "t" "t.mp3"
  exact ⟨h.1 (Or.inr rfl),
    h.2.2.2.2.1 [SentenceLine.header, SentenceLine.record "s" "s.mp3"] rfl (by simp)⟩

theorem default_speed_config_idx_eq : default_speed_config_idx = 2 := by decide

theorem dictation_pass_id (disk : List String) (l : List WordEntry)
    (h : ∀ e ∈ l, word_entry_complete e = true ∧ word_default_audio_path e ∈ disk) :
    dictation_pass disk l = l := by
  induction l with
  | nil => rfl
  | cons e rest ih =>
    obtain ⟨hc, hd⟩ := h e (List.mem_cons_self _ _)
    simp only [dictation_pass]
    rw [if_pos hc, if_pos hd, ih (fun x hx => h x (List.mem_cons_of_mem _ hx))]

theorem dictation_pro_pass_id (disk : List String) (playOk : String → Bool)
    (idx : Nat) (l : List SentenceEntry)
    (h : ∀ e ∈ l, sentence_entry_incomplete e = false ∧
      (play_current_sentence_audio disk playOk (stemExt e.audio_file_name).1
        (stemExt e.audio_file_name).2 idx).2 = true) :
    dictation_pro_pass disk playOk idx l = l := by
  induction l with
  | nil => rfl
  | cons e rest ih =>
    obtain ⟨hc, hd⟩ := h e (List.mem_cons_self _ _)
    simp only [dictation_pro_pass]
    rw [if_neg (by simp [hc]), if_pos hd,
      ih (fun x hx => h x (List.mem_cons_of_mem _ hx))]

/-- C4: fallback resolution in the sentence-pro drill.  For any item and
any selected speed index, when that variant's artifact is absent: if the
default-variant artifact exists, playback resolves to the default-variant
file (the default file is the one handed to the player); if the default
artifact is also absent, playback is reported as failed (the flag is false
and nothing is played).  Moreover the keys that trigger playback in the
listening loop (left, right, space) never change the item index, so a
failed playback there does not advance to the next item. -/
theorem claim_C4 (disk : List String) (playOk : String → Bool)
    (base ext : String) (idx : Nat)
    (hidx : idx < SPEED_CONFIGURATIONS.length)
    (hmiss : variant_audio_path AUDIO_PRO_DIR base
      (SPEED_CONFIGURATIONS.getD idx ⟨0, ""⟩).tag ext ∉ disk) :
    (variant_audio_path AUDIO_PRO_DIR base DEFAULT_SPEED_TAG ext ∈ disk →
      play_current_sentence_audio disk playOk base ext idx =
        (some (variant_audio_path AUDIO_PRO_DIR base DEFAULT_SPEED_TAG ext),
         playOk (variant_audio_path AUDIO_PRO_DIR base DEFAULT_SPEED_TAG ext))) ∧
    (variant_audio_path AUDIO_PRO_DIR base DEFAULT_SPEED_TAG ext ∉ disk →
      play_current_sentence_audio disk playOk base ext idx = (none, false)) ∧
    (∀ total s, (pro_step total s ProEvent.keyLeft).current_item_idx = s.current_item_idx ∧
      (pro_step total s ProEvent.keyRight).current_item_idx = s.current_item_idx ∧
      (pro_step total s ProEvent.keySpace).current_item_idx = s.current_item_idx) := by
  have hdtag : (SPEED_CONFIGURATIONS.getD default_speed_config_idx ⟨0, ""⟩).tag =
      DEFAULT_SPEED_TAG := by decide
  refine ⟨?_, ?_, ?_⟩
  · intro hdef
    simp only [play_current_sentence_audio]
    rw [if_neg hmiss, hdtag, if_pos hdef]
  · intro hdef
    simp only [play_current_sentence_audio]
    rw [if_neg hmiss, hdtag, if_neg hdef]
  · intro total s
    exact ⟨rfl, rfl, rfl⟩

/-- Witness for C4: with only the default-variant file on disk and the
extra-slow variant selected, playback resolves to the default file and
succeeds. -/
theorem claim_C4_witness :
    play_current_sentence_audio
        [variant_audio_path AUDIO_PRO_DIR "hi" DEFAULT_SPEED_TAG ".mp3"]
        (fun _ => true) "hi" ".mp3" 0 =
      (some (variant_audio_path AUDIO_PRO_DIR "hi" DEFAULT_SPEED_TAG ".mp3"), true) :=
  (claim_C4 [variant_audio_path AUDIO_PRO_DIR "hi" DEFAULT_SPEED_TAG ".mp3"]
    (fun _ => true) "hi" ".mp3" 0 (by decide) (by decide)).1 (by decide)

/-- C5: shuffle completeness.  For any shuffle outcome (any permutation of
the loaded list) in the word drill and in the sentence-pro drill, one pass
over the shuffled list presents exactly the shuffled list when every entry
is complete and playable: every entry is presented exactly as often as it
occurs in the store, and when the store has no duplicate entries, each of
the N entries is presented exactly once in the pass — a repeat can only
come from a later pass, which the code starts only on the explicit
practice-again choice with a fresh shuffle. -/
theorem claim_C5 (disk diskP : List String) (playOk : String → Bool) (idx : Nat)
    (vocab shuffled : List WordEntry)
    (sentences shuffledS : List SentenceEntry)
    (hperm : shuffled.Perm vocab)
    (hcomp : ∀ e ∈ vocab, word_entry_complete e = true ∧
      word_default_audio_path e ∈ disk)
    (hpermS : shuffledS.Perm sentences)
    (hcompS : ∀ e ∈ sentences, sentence_entry_incomplete e = false ∧
      (play_current_sentence_audio diskP playOk (stemExt e.audio_file_name).1
        (stemExt e.audio_file_name).2 idx).2 = true) :
    dictation_pass disk shuffled = shuffled ∧
    (∀ x, (dictation_pass disk shuffled).count x = vocab.count x) ∧
    (vocab.Nodup → ∀ x ∈ vocab, (dictation_pass disk shuffled).count x = 1) ∧
    dictation_pro_pass diskP playOk idx shuffledS = shuffledS ∧
    (∀ x, (dictation_pro_pass diskP playOk idx shuffledS).count x = sentences.count x) ∧
    (sentences.Nodup → ∀ x ∈ sentences,
      (dictation_pro_pass diskP playOk idx shuffledS).count x = 1) := by
  have hid : dictation_pass disk shuffled = shuffled :=
    dictation_pass_id disk shuffled
      (fun e he => hcomp e (hperm.mem_iff.mp he))
  have hidS : dictation_pro_pass diskP playOk idx shuffledS = shuffledS :=
    dictation_pro_pass_id diskP playOk idx shuffledS
      (fun e he => hcompS e (hpermS.mem_iff.mp he))
  refine ⟨hid, ?_, ?_, hidS, ?_, ?_⟩
  · intro x
    rw [hid]
    exact hperm.count_eq x
  · intro hnd x hx
    rw [hid]
    exact List.count_eq_one_of_mem (hperm.nodup_iff.mpr hnd) (hperm.mem_iff.mpr hx)
  · intro x
    rw [hidS]
    exact hpermS.count_eq x
  · intro hnd x hx
    rw [hidS]
    exact List.count_eq_one_of_mem (hpermS.nodup_iff.mpr hnd) (hpermS.mem_iff.mpr hx)

/-- Witness for C5: a two-entry store presented in reversed shuffle order,
each entry exactly once. -/
theorem claim_C5_witness :
    dictation_pass
        [word_default_audio_path ⟨"a", "pa", "ma", "a.mp3"⟩,
         word_default_audio_path ⟨"b", "pb", "mb", "b.mp3"⟩]
        [⟨"b", "pb", "mb", "b.mp3"⟩, ⟨"a", "pa", "ma", "a.mp3"⟩] =
      [⟨"b", "pb", "mb", "b.mp3"⟩, ⟨"a", "pa", "ma", "a.mp3"⟩] :=
  (claim_C5
    [word_default_audio_path ⟨"a", "pa", "ma", "a.mp3"⟩,
     word_default_audio_path ⟨"b", "pb", "mb", "b.mp3"⟩]
    [variant_audio_path AUDIO_PRO_DIR "s" DEFAULT_SPEED_TAG ".mp3"]
    (fun _ => true) 2
    [⟨"a", "pa", "ma", "a.mp3"⟩, ⟨"b", "pb", "mb", "b.mp3"⟩]
    [⟨"b", "pb", "mb", "b.mp3"⟩, ⟨"a", "pa", "ma", "a.mp3"⟩]
    [⟨"s", "s.mp3"⟩] [⟨"s", "s.mp3"⟩]
    (by decide) (by decide) (by decide) (by decide)).1

/-- C10: within one dictation-pro session the speed index starts at the
default variant (index 2 of the three-entry configuration list, whose value
is the default speed and whose filename tag is the default tag); left and
right cycle it by one modulo the list length, wrapping in both directions;
and every other session event — replay, reveal, quit, advancing to the next
item, and both practice-again choices (including the reshuffle) — leaves
the speed index unchanged. -/
theorem claim_C10 (total : Nat) (s : ProState) (e : ProEvent) :
    initial_speed_index = 2 ∧
    (SPEED_CONFIGURATIONS.getD initial_speed_index ⟨0, ""⟩).value =
      DEFAULT_KOKORO_SPEED ∧
    (SPEED_CONFIGURATIONS.getD initial_speed_index ⟨0, ""⟩).tag =
      DEFAULT_SPEED_TAG ∧
    (pro_step total s ProEvent.keyLeft).current_speed_index =
      (s.current_speed_index + SPEED_CONFIGURATIONS.length - 1) %
        SPEED_CONFIGURATIONS.length ∧
    (pro_step total s ProEvent.keyRight).current_speed_index =
      (s.current_speed_index + 1) % SPEED_CONFIGURATIONS.length ∧
    (∀ i, (pro_step total ⟨i, 0⟩ ProEvent.keyLeft).current_speed_index =
      SPEED_CONFIGURATIONS.length - 1) ∧
    (∀ i, (pro_step total ⟨i, SPEED_CONFIGURATIONS.length - 1⟩
      ProEvent.keyRight).current_speed_index = 0) ∧
    (e ≠ ProEvent.keyLeft → e ≠ ProEvent.keyRight →
      (pro_step total s e).current_speed_index = s.current_speed_index) := by
  refine ⟨by decide, by decide, by decide, rfl, rfl, fun i => rfl,
    fun i => by norm_num [pro_step, SPEED_CONFIGURATIONS], ?_⟩
  intro hL hR
  cases e with
  | keyLeft => exact absurd rfl hL
  | keyRight => exact absurd rfl hR
  | keySpace => rfl
  | keyEnter => rfl
  | keyQuit => rfl
  | continueNext => rfl
  | practiceAgainYes => rfl
  | practiceAgainNo => rfl

theorem decReprAux_stable : ∀ n f1 f2, n < f1 → n < f2 →
    decReprAux f1 n = decReprAux f2 n := by
  intro n
  induction n using Nat.strong_induction_on with
  | _ n ih =>
    intro f1 f2 h1 h2
    cases f1 with
    | zero => omega
    | succ g1 =>
      cases f2 with
      | zero => omega
      | succ g2 =>
        simp only [decReprAux]
        by_cases hn : n < 10
        · rw [if_pos hn, if_pos hn]
        · rw [if_neg hn, if_neg hn]
          have hd : n / 10 < n := Nat.div_lt_self (by omega) (by omega)
          rw [ih (n / 10) hd g1 g2 (by omega) (by omega)]

theorem decRepr_eq (n : Nat) : decRepr n =
    if n < 10 then [Nat.digitChar n]
    else decRepr (n / 10) ++ [Nat.digitChar (n % 10)] := by
  by_cases hn : n < 10
  · rw [if_pos hn]
    show (if n < 10 then [Nat.digitChar n]
      else decReprAux n (n / 10) ++ [Nat.digitChar (n % 10)]) = _
    rw [if_pos hn]
  · rw [if_neg hn]
    show (if n < 10 then [Nat.digitChar n]
      else decReprAux n (n / 10) ++ [Nat.digitChar (n % 10)]) = _
    rw [if_neg hn]
    congr 1
    show decReprAux n (n / 10) = decReprAux (n / 10 + 1) (n / 10)
    exact decReprAux_stable (n / 10) n (n / 10 + 1)
      (Nat.div_lt_self (by omega) (by omega)) (by omega)

theorem decRepr_ne_nil (n : Nat) : decRepr n ≠ [] := by
  rw [decRepr_eq]
  split_ifs <;> simp

theorem digitChar_inj_below_ten :
    ∀ a < 10, ∀ b < 10, Nat.digitChar a = Nat.digitChar b → a = b := by decide

theorem decRepr_inj : ∀ m n, decRepr m = decRepr n → m = n := by
  intro m
  induction m using Nat.strong_induction_on with
  | _ m ih =>
    intro n h
    rw [decRepr_eq m, decRepr_eq n] at h
    by_cases hm : m < 10 <;> by_cases hn : n < 10
    · rw [if_pos hm, if_pos hn] at h
      simp only [List.cons.injEq, and_true] at h
      exact digitChar_inj_below_ten m hm n hn h
    · rw [if_pos hm, if_neg hn] at h
      have hl := congrArg List.length h
      simp only [List.length_cons, List.length_nil, List.length_append] at hl
      have := List.length_pos.mpr (decRepr_ne_nil (n / 10))
      omega
    · rw [if_neg hm, if_pos hn] at h
      have hl := congrArg List.length h
      simp only [List.length_cons, List.length_nil, List.length_append] at hl
      have := List.length_pos.mpr (decRepr_ne_nil (m / 10))
      omega
    · rw [if_neg hm, if_neg hn] at h
      have h2 := congrArg List.reverse h
      simp only [List.reverse_append, List.reverse_cons, List.reverse_nil,
        List.nil_append, List.cons_append] at h2
      simp only [List.cons.injEq] at h2
      obtain ⟨hx, hrev⟩ := h2
      have hdiv : m / 10 = n / 10 := by
        apply ih (m / 10) (Nat.div_lt_self (by omega) (by omega))
        have := congrArg List.reverse hrev
        simpa using this
      have hmod : m % 10 = n % 10 :=
        digitChar_inj_below_ten (m % 10) (Nat.mod_lt m (by omega))
          (n % 10) (Nat.mod_lt n (by omega)) hx
      omega

theorem decRepr_no_dot : ∀ n, ('.' : Char) ∉ decRepr n := by
  intro n
  induction n using Nat.strong_induction_on with
  | _ n ih =>
    rw [decRepr_eq]
    have hdig : ∀ a < 10, Nat.digitChar a ≠ '.' := by decide
    split_ifs with hn
    · simp only [List.mem_singleton]
      intro hc
      exact hdig n hn hc.symm
    · simp only [List.mem_append, List.mem_singleton]
      rintro (hc | hc)
      · exact ih (n / 10) (Nat.div_lt_self (by omega) (by omega)) hc
      · exact hdig (n % 10) (Nat.mod_lt n (by omega)) hc.symm

theorem append_tail_eq {x y a b : List Char} (h : x ++ a = y ++ b)
    (hle : a.length ≤ b.length) : a = b.drop (b.length - a.length) := by
  have h1 : (x ++ a).drop x.length = a := List.drop_left x a
  have hlen := congrArg List.length h
  simp only [List.length_append] at hlen
  have hx : x.length = y.length + (b.length - a.length) := by omega
  rw [h, hx] at h1
  have h2 : (y ++ b).drop (y.length + (b.length - a.length)) =
      b.drop (b.length - a.length) := by simp
  rw [h2] at h1
  exact h1.symm

theorem word_candidate_inj (base pin : String) :
    Function.Injective (word_candidate base pin) := by
  intro j k h
  apply decRepr_inj
  have hd := congrArg String.data h
  simp only [word_candidate, String.data_append, List.append_assoc] at hd
  have h1 := List.append_cancel_left hd
  have h2 := List.append_cancel_left h1
  have h3 := List.append_cancel_left h2
  have h4 := List.append_cancel_left h3
  exact List.append_cancel_right h4

theorem sentence_candidate_inj (base : String) :
    Function.Injective (sentence_candidate base) := by
  intro j k h
  apply decRepr_inj
  have hd := congrArg String.data h
  simp only [sentence_candidate, String.data_append, List.append_assoc] at hd
  have h1 := List.append_cancel_left hd
  have h2 := List.append_cancel_left h1
  exact List.append_cancel_right h2

theorem word_candidate_length (base pin : String) (k : Nat) :
    (word_candidate base pin k).length =
      base.length + 1 + pin.length + 1 + (decRepr k).length + 4 := by
  simp only [word_candidate, String.length_append]
  have h1 : ("_" : String).length = 1 := rfl
  have h2 : (".mp3" : String).length = 4 := rfl
  have h3 : (String.mk (decRepr k)).length = (decRepr k).length := rfl
  omega

theorem sentence_candidate_length (base : String) (k : Nat) :
    (sentence_candidate base k).length =
      base.length + 1 + (decRepr k).length + 4 := by
  simp only [sentence_candidate, String.length_append]
  have h1 : ("_" : String).length = 1 := rfl
  have h2 : (".mp3" : String).length = 4 := rfl
  have h3 : (String.mk (decRepr k)).length = (decRepr k).length := rfl
  omega

theorem word_cur_ne_candidate (base pin : String) (k : Nat) :
    base ++ ".mp3" ≠ word_candidate base pin k := by
  intro h
  have hl := congrArg String.length h
  rw [String.length_append, word_candidate_length] at hl
  have h4 : (".mp3" : String).length = 4 := rfl
  have h5 : 1 ≤ (decRepr k).length := List.length_pos.mpr (decRepr_ne_nil k)
  omega

theorem sentence_cur_ne_candidate (base : String) (k : Nat) :
    base ++ ".mp3" ≠ sentence_candidate base k := by
  intro h
  have hl := congrArg String.length h
  rw [String.length_append, sentence_candidate_length] at hl
  have h4 : (".mp3" : String).length = 4 := rfl
  have h5 : 1 ≤ (decRepr k).length := List.length_pos.mpr (decRepr_ne_nil k)
  omega

theorem probe_name_free (mk : Nat → String) (existing : List String) :
    ∀ fuel counter cur,
      (∃ c ∈ probe_cands mk fuel counter cur, c ∉ existing) →
      probe_name mk existing fuel counter cur ∉ existing := by
  intro fuel
  induction fuel with
  | zero =>
    intro counter cur h
    simp only [probe_cands, List.not_mem_nil, false_and, exists_const] at h
  | succ f ih =>
    intro counter cur h
    simp only [probe_name]
    by_cases hc : cur ∈ existing
    · rw [if_pos hc]
      apply ih
      obtain ⟨c, hcin, hcfree⟩ := h
      simp only [probe_cands, List.mem_cons] at hcin
      rcases hcin with rfl | hcin'
      · exact absurd hc hcfree
      · exact ⟨c, hcin', hcfree⟩
    · rw [if_neg hc]
      exact hc

theorem probe_cands_succ_eq (mk : Nat → String) : ∀ f counter cur,
    probe_cands mk (f + 1) counter cur =
      cur :: (List.range' counter f).map mk := by
  intro f
  induction f with
  | zero => intro counter cur; rfl
  | succ g ih =>
    intro counter cur
    show cur :: probe_cands mk (g + 1) (counter + 1) (mk counter) = _
    rw [ih (counter + 1) (mk counter), List.range'_succ counter g 1]
    rfl

theorem probe_cands_length (mk : Nat → String) : ∀ f counter cur,
    (probe_cands mk f counter cur).length = f := by
  intro f
  induction f with
  | zero => intro counter cur; rfl
  | succ g ih =>
    intro counter cur
    show (cur :: probe_cands mk g (counter + 1) (mk counter)).length = g + 1
    rw [List.length_cons, ih]

theorem probe_cands_nodup (mk : Nat → String) (hinj : Function.Injective mk)
    (cur : String) (hcur : ∀ k, cur ≠ mk k) (f counter : Nat) :
    (probe_cands mk (f + 1) counter cur).Nodup := by
  rw [probe_cands_succ_eq]
  refine List.nodup_cons.mpr ⟨?_, ?_⟩
  · intro hmem
    obtain ⟨k, -, hkeq⟩ := List.mem_map.mp hmem
    exact hcur k hkeq.symm
  · exact (List.nodup_range' counter f).map hinj

theorem probe_exists_free (mk : Nat → String) (hinj : Function.Injective mk)
    (existing : List String) (cur : String) (hcur : ∀ k, cur ≠ mk k) :
    ∃ c ∈ probe_cands mk (existing.length + 1) 1 cur, c ∉ existing := by
  by_contra hno
  push_neg at hno
  have hnd := probe_cands_nodup mk hinj cur hcur existing.length 1
  have hlen := probe_cands_length mk (existing.length + 1) 1 cur
  have h1 : (probe_cands mk (existing.length + 1) 1 cur).toFinset.card =
      existing.length + 1 := by
    rw [List.toFinset_card_of_nodup hnd, hlen]
  have h2 : (probe_cands mk (existing.length + 1) 1 cur).toFinset ⊆
      existing.toFinset := by
    intro x hx
    rw [List.mem_toFinset] at hx ⊢
    exact hno x hx
  have h3 := Finset.card_le_card h2
  have h4 := existing.toFinset_card_le
  omega

theorem word_final_not_mem (idea pinyin : String) (existing : List String) :
    word_final_audio_name idea pinyin existing ∉ existing := by
  unfold word_final_audio_name
  exact probe_name_free _ existing _ 1 _
    (probe_exists_free _ (word_candidate_inj _ _) existing _
      (fun k => word_cur_ne_candidate _ _ k))

theorem sentence_final_not_mem (idea : String) (existing : List String) :
    sentence_final_audio_name idea existing ∉ existing := by
  unfold sentence_final_audio_name
  exact probe_name_free _ existing _ 1 _
    (probe_exists_free _ (sentence_candidate_inj _) existing _
      (fun k => sentence_cur_ne_candidate _ k))

theorem sanitize_filename_no_dot (s : String) :
    ('.' : Char) ∉ (sanitize_filename s).data := by
  intro h
  have h' : ('.' : Char) ∈
      (((s.data.map (fun c => if c = ' ' then '_' else c)).filter
        (fun c => c.isAlphanum || c == '_' || c == '-')).reverse.dropWhile
        (fun c => c.isWhitespace)).reverse := h
  rw [List.mem_reverse] at h'
  have h'' := (List.dropWhile_sublist (fun c : Char => c.isWhitespace)).subset h'
  rw [List.mem_reverse] at h''
  have h3 := List.mem_filter.mp h''
  have hf : (('.' : Char).isAlphanum || '.' == '_' || '.' == '-') = false := by decide
  rw [hf] at h3
  exact absurd h3.2 (by simp)

theorem no_dot_append {a b : String} (ha : ('.' : Char) ∉ a.data)
    (hb : ('.' : Char) ∉ b.data) : ('.' : Char) ∉ (a ++ b).data := by
  intro h
  rw [String.data_append, List.mem_append] at h
  rcases h with h | h
  · exact ha h
  · exact hb h

theorem pinyin_no_dot (pinyin : String) :
    ('.' : Char) ∉ ((if pinyin = "" then "unknown_pinyin"
      else sanitize_filename pinyin) : String).data := by
  split_ifs
  · decide
  · exact sanitize_filename_no_dot pinyin

theorem probe_name_cases (mk : Nat → String) (existing : List String) :
    ∀ fuel counter cur, probe_name mk existing fuel counter cur = cur ∨
      ∃ k, probe_name mk existing fuel counter cur = mk k := by
  intro fuel
  induction fuel with
  | zero => intro counter cur; exact Or.inl rfl
  | succ f ih =>
    intro counter cur
    simp only [probe_name]
    by_cases hc : cur ∈ existing
    · rw [if_pos hc]
      rcases ih (counter + 1) (mk counter) with h | ⟨k, h⟩
      · exact Or.inr ⟨counter, h⟩
      · exact Or.inr ⟨k, h⟩
    · rw [if_neg hc]
      exact Or.inl rfl

theorem word_final_shape (idea pinyin : String) (existing : List String) :
    ∃ b : String, ('.' : Char) ∉ b.data ∧
      word_final_audio_name idea pinyin existing = b ++ ".mp3" := by
  rcases probe_name_cases
      (word_candidate (sanitize_filename idea)
        (if pinyin = "" then "unknown_pinyin" else sanitize_filename pinyin))
      existing (existing.length + 1) 1 (sanitize_filename idea ++ ".mp3")
    with h | ⟨k, h⟩
  · exact ⟨sanitize_filename idea, sanitize_filename_no_dot idea, h⟩
  · refine ⟨sanitize_filename idea ++ "_" ++
      (if pinyin = "" then "unknown_pinyin" else sanitize_filename pinyin) ++
      "_" ++ String.mk (decRepr k), ?_, ?_⟩
    · refine no_dot_append (no_dot_append (no_dot_append (no_dot_append
        (sanitize_filename_no_dot idea) (by decide)) (pinyin_no_dot pinyin))
        (by decide)) ?_
      exact decRepr_no_dot k
    · exact h

theorem sentence_final_shape (idea : String) (existing : List String) :
    ∃ b : String, ('.' : Char) ∉ b.data ∧
      sentence_final_audio_name idea existing = b ++ ".mp3" := by
  rcases probe_name_cases (sentence_candidate (sanitize_filename idea))
      existing (existing.length + 1) 1 (sanitize_filename idea ++ ".mp3")
    with h | ⟨k, h⟩
  · exact ⟨sanitize_filename idea, sanitize_filename_no_dot idea, h⟩
  · refine ⟨sanitize_filename idea ++ "_" ++ String.mk (decRepr k), ?_, h⟩
    exact no_dot_append (no_dot_append (sanitize_filename_no_dot idea)
      (by decide)) (decRepr_no_dot k)

theorem splitext_dotfree (b : String) (hb : ('.' : Char) ∉ b.data)
    (hne : b ≠ "") : splitext (b ++ ".mp3") = (b, ".mp3") := by
  have hdata : (b ++ ".mp3").data = b.data ++ ['.', 'm', 'p', '3'] := by
    rw [String.data_append]
  have hbd : b.data ≠ [] := fun hh => hne (String.ext hh)
  have hall : (b.data.reverse.all (fun c => c == '.')) = false := by
    rw [List.all_eq_false]
    refine ⟨b.data.head hbd, List.mem_reverse.mpr (List.head_mem hbd), ?_⟩
    have hmem := List.head_mem hbd
    intro hc
    rw [beq_iff_eq] at hc
    exact hb (hc ▸ hmem)
  have c3 : ((('3' : Char) != '.') : Bool) = true := by decide
  have cp : ((('p' : Char) != '.') : Bool) = true := by decide
  have cm : ((('m' : Char) != '.') : Bool) = true := by decide
  have cd : ((('.' : Char) != '.') : Bool) = false := by decide
  have hcd' : ¬(((('.' : Char) != '.') : Bool) = true) := by decide
  have hdw : (('3' :: 'p' :: 'm' :: '.' :: b.data.reverse).dropWhile
      (fun c => c != '.')) = '.' :: b.data.reverse := by
    simp only [List.dropWhile_cons, c3, cp, cm, cd]
    simp
  have htw : (('3' :: 'p' :: 'm' :: '.' :: b.data.reverse).takeWhile
      (fun c => c != '.')) = ['3', 'p', 'm'] := by
    simp only [List.takeWhile_cons, c3, cp, cm, cd]
    simp
  simp only [splitext, hdata, List.reverse_append]
  have hrev4 : (['.', 'm', 'p', '3'] : List Char).reverse = ['3', 'p', 'm', '.'] := rfl
  rw [hrev4]
  simp only [List.cons_append, List.nil_append, hdw, htw]
  rw [hall]
  simp only [Bool.false_eq_true, if_false, List.reverse_reverse]
  rfl

theorem stemExt_dotfree (b : String) (hb : ('.' : Char) ∉ b.data)
    (hne : b ≠ "") : stemExt (b ++ ".mp3") = (b, ".mp3") := by
  simp [stemExt, splitext_dotfree b hb hne]

theorem stemExt_empty_base : stemExt ("" ++ ".mp3") = (".mp3", ".mp3") := by decide

theorem vap_eq_imp {dir s1 s2 t1 t2 e : String}
    (h : variant_audio_path dir s1 t1 e = variant_audio_path dir s2 t2 e) :
    s1.data ++ t1.data = s2.data ++ t2.data := by
  have hd := congrArg String.data h
  simp only [variant_audio_path, String.data_append, List.append_assoc] at hd
  have h1 := List.append_cancel_left hd
  have h2 := List.append_cancel_left h1
  rw [← List.append_assoc, ← List.append_assoc] at h2
  exact List.append_cancel_right h2

theorem tag_append_ne {s1 s2 : String} (hstem : s1 ≠ s2) :
    ∀ t1 ∈ [DEFAULT_SPEED_TAG, SLOWER_SPEED_TAG, EXTRA_SLOW_SPEED_TAG],
    ∀ t2 ∈ [DEFAULT_SPEED_TAG, SLOWER_SPEED_TAG, EXTRA_SLOW_SPEED_TAG],
      s1.data ++ t1.data ≠ s2.data ++ t2.data := by
  have hsame : ∀ t : String, s1.data ++ t.data ≠ s2.data ++ t.data := by
    intro t h
    exact hstem (String.ext (List.append_cancel_right h))
  intro t1 ht1 t2 ht2
  simp only [List.mem_cons, List.not_mem_nil, or_false] at ht1 ht2
  rcases ht1 with rfl | rfl | rfl <;> rcases ht2 with rfl | rfl | rfl
  · exact hsame _
  · intro h
    have := append_tail_eq h.symm (by decide)
    exact absurd this (by decide)
  · intro h
    have := append_tail_eq h.symm (by decide)
    exact absurd this (by decide)
  · intro h
    have := append_tail_eq h (by decide)
    exact absurd this (by decide)
  · exact hsame _
  · intro h
    have := append_tail_eq h (by decide)
    exact absurd this (by decide)
  · intro h
    have := append_tail_eq h (by decide)
    exact absurd this (by decide)
  · intro h
    have := append_tail_eq h.symm (by decide)
    exact absurd this (by decide)
  · exact hsame _

theorem final_artifact_paths_ne (dir b1 b2 : String)
    (hb1 : ('.' : Char) ∉ b1.data) (hb2 : ('.' : Char) ∉ b2.data)
    (hne : b1 ++ ".mp3" ≠ b2 ++ ".mp3") :
    ∀ p1 ∈ entry_artifact_paths dir (b1 ++ ".mp3"),
    ∀ p2 ∈ entry_artifact_paths dir (b2 ++ ".mp3"), p1 ≠ p2 := by
  have hse : ∀ b : String, ('.' : Char) ∉ b.data →
      stemExt (b ++ ".mp3") = (if b = "" then ".mp3" else b, ".mp3") := by
    intro b hb
    by_cases hbe : b = ""
    · subst hbe
      rw [if_pos rfl]
      exact stemExt_empty_base
    · rw [if_neg hbe]
      exact stemExt_dotfree b hb hbe
  have hstem : (if b1 = "" then ".mp3" else b1) ≠ (if b2 = "" then ".mp3" else b2) := by
    by_cases h1 : b1 = "" <;> by_cases h2 : b2 = ""
    · subst h1; subst h2
      exact absurd rfl hne
    · rw [if_pos h1, if_neg h2]
      intro heq
      have : ('.' : Char) ∈ (".mp3" : String).data := by decide
      rw [heq] at this
      exact hb2 this
    · rw [if_neg h1, if_pos h2]
      intro heq
      have : ('.' : Char) ∈ (".mp3" : String).data := by decide
      rw [← heq] at this
      exact hb1 this
    · rw [if_neg h1, if_neg h2]
      intro heq
      exact hne (by rw [heq])
  intro p1 hp1 p2 hp2
  simp only [entry_artifact_paths, hse b1 hb1, hse b2 hb2, List.mem_cons,
    List.not_mem_nil, or_false] at hp1 hp2
  have htags := tag_append_ne hstem
  rcases hp1 with rfl | rfl | rfl <;> rcases hp2 with rfl | rfl | rfl <;>
    · intro heq
      exact htags _ (by simp) _ (by simp) (vap_eq_imp heq)

/-- C3: filename uniqueness on create.  For any store contents and any two
sanitized base-filename ideas (colliding or not), the word flow's
disambiguation probe yields for the first entry a name not already among
the stored audio names, and for a second entry (probed against the store
extended with the first name, as the flow appends the accepted entry to the
in-memory list) a name distinct both from the store's names and from the
first entry's name; the names are chosen by the probe before any synthesis
starts, and the two entries' on-disk artifact paths are pairwise distinct,
so neither overwrites the other.  The same holds for the sentence flow's
numeric-counter probe. -/
theorem claim_C3 (existing sexisting : List String)
    (idea1 pin1 idea2 pin2 sidea1 sidea2 : String) :
    (word_final_audio_name idea1 pin1 existing ∉ existing) ∧
    (word_final_audio_name idea2 pin2
      (word_final_audio_name idea1 pin1 existing :: existing) ∉ existing) ∧
    (word_final_audio_name idea2 pin2
        (word_final_audio_name idea1 pin1 existing :: existing) ≠
      word_final_audio_name idea1 pin1 existing) ∧
    (∀ p1 ∈ entry_artifact_paths AUDIO_CHAR_DIR
        (word_final_audio_name idea1 pin1 existing),
     ∀ p2 ∈ entry_artifact_paths AUDIO_CHAR_DIR
        (word_final_audio_name idea2 pin2
          (word_final_audio_name idea1 pin1 existing :: existing)),
     p1 ≠ p2) ∧
    (sentence_final_audio_name sidea1 sexisting ∉ sexisting) ∧
    (sentence_final_audio_name sidea2
      (sentence_final_audio_name sidea1 sexisting :: sexisting) ∉ sexisting) ∧
    (sentence_final_audio_name sidea2
        (sentence_final_audio_name sidea1 sexisting :: sexisting) ≠
      sentence_final_audio_name sidea1 sexisting) ∧
    (∀ p1 ∈ entry_artifact_paths AUDIO_PRO_DIR
        (sentence_final_audio_name sidea1 sexisting),
     ∀ p2 ∈ entry_artifact_paths AUDIO_PRO_DIR
        (sentence_final_audio_name sidea2
          (sentence_final_audio_name sidea1 sexisting :: sexisting)),
     p1 ≠ p2) := by
  have h1 := word_final_not_mem idea1 pin1 existing
  have h2 := word_final_not_mem idea2 pin2
    (word_final_audio_name idea1 pin1 existing :: existing)
  have hs1 := sentence_final_not_mem sidea1 sexisting
  have hs2 := sentence_final_not_mem sidea2
    (sentence_final_audio_name sidea1 sexisting :: sexisting)
  obtain ⟨b1, hb1, he1⟩ := word_final_shape idea1 pin1 existing
  obtain ⟨b2, hb2, he2⟩ := word_final_shape idea2 pin2
    (word_final_audio_name idea1 pin1 existing :: existing)
  obtain ⟨c1, hc1, hf1⟩ := sentence_final_shape sidea1 sexisting
  obtain ⟨c2, hc2, hf2⟩ := sentence_final_shape sidea2
    (sentence_final_audio_name sidea1 sexisting :: sexisting)
  have hne2 : word_final_audio_name idea2 pin2
      (word_final_audio_name idea1 pin1 existing :: existing) ≠
      word_final_audio_name idea1 pin1 existing := by
    intro heq
    apply h2
    rw [heq]
    exact List.mem_cons_self _ _
  have hsne2 : sentence_final_audio_name sidea2
      (sentence_final_audio_name sidea1 sexisting :: sexisting) ≠
      sentence_final_audio_name sidea1 sexisting := by
    intro heq
    apply hs2
    rw [heq]
    exact List.mem_cons_self _ _
  refine ⟨h1, fun hh => h2 (List.mem_cons_of_mem _ hh), hne2, ?_,
    hs1, fun hh => hs2 (List.mem_cons_of_mem _ hh), hsne2, ?_⟩
  · have hb12 : b1 ++ ".mp3" ≠ b2 ++ ".mp3" := by
      rw [← he1, ← he2]
      exact fun heq => hne2 heq.symm
    rw [he2, he1]
    exact final_artifact_paths_ne AUDIO_CHAR_DIR b1 b2 hb1 hb2 hb12
  · have hc12 : c1 ++ ".mp3" ≠ c2 ++ ".mp3" := by
      rw [← hf1, ← hf2]
      exact fun heq => hsne2 heq.symm
    rw [hf2, hf1]
    exact final_artifact_paths_ne AUDIO_PRO_DIR c1 c2 hc1 hc2 hc12

/-- Witness for C3 at a concrete colliding store: the probe result avoids
the taken name. -/
theorem claim_C3_witness :
    word_final_audio_name "hi" "he" ["hi.mp3"] ∉ (["hi.mp3"] : List String) :=
  (claim_C3 ["hi.mp3"] ["s.mp3"] "hi" "he" "hi" "he" "s" "s").1

end Laoshi
